import Mathlib

/-!
Verification of the BGUtils token pipeline and SandboxedEvaluator of this
repository, by a shallow embedding of `src/bgutils/SandboxedEvaluator.ts`
and the `BGUtils` class into Lean.

Bytes are modelled as `Nat` values below 256 (the TypeScript code works on
`Uint8Array`), strings as Lean `String`, JSON values as an inductive type.
Fallible platform primitives (`atob`, `TextDecoder`) return `Option`.
-/

namespace YTJS

/-! ## Platform base64 primitives (`btoa` / `atob`)

Model of the platform's `btoa`/`atob` pair used by `BGUtils.u8ToBase64` and
`BGUtils.base64ToU8`.  `atobList` follows the WHATWG forgiving-base64 decode
(padding `=` accepted only as the final one or two characters of a
4-character-aligned string; leftover bits are discarded without validation).
Whitespace stripping is elided: no input produced by this codec contains
whitespace. -/

def b64Chars : List Char :=
  "ABCDEFGHIJKLMNOPQRSTUVWXYZabcdefghijklmnopqrstuvwxyz0123456789+/".toList

def b64Char (n : Nat) : Char := b64Chars.getD n 'A'

def b64Index (c : Char) : Option Nat :=
  let i := b64Chars.indexOf c
  if i < 64 then some i else none

/-- `btoa(String.fromCharCode(...u8))`: 3-byte groups to 4 base64 chars,
with `=` padding on a final 1- or 2-byte group. -/
def encodeGroups : List Nat → List Char
  | [] => []
  | [a] => [b64Char (a / 4), b64Char (a % 4 * 16), '=', '=']
  | [a, b] => [b64Char (a / 4), b64Char (a % 4 * 16 + b / 16), b64Char (b % 16 * 4), '=']
  | a :: b :: c :: rest =>
    b64Char (a / 4) :: b64Char (a % 4 * 16 + b / 16) :: b64Char (b % 16 * 4 + c / 64) ::
      b64Char (c % 64) :: encodeGroups rest

/-- Decode two base64 characters into one byte (the final 4 leftover bits
are discarded, per forgiving-base64). -/
def dec2 (c1 c2 : Char) : Option (List Nat) := do
  let i1 ← b64Index c1
  let i2 ← b64Index c2
  pure [i1 * 4 + i2 / 16]

/-- Decode three base64 characters into two bytes (2 leftover bits discarded). -/
def dec3 (c1 c2 c3 : Char) : Option (List Nat) := do
  let i1 ← b64Index c1
  let i2 ← b64Index c2
  let i3 ← b64Index c3
  pure [i1 * 4 + i2 / 16, i2 % 16 * 16 + i3 / 4]

/-- Decode four base64 characters into three bytes. -/
def dec4 (c1 c2 c3 c4 : Char) : Option (List Nat) := do
  let i1 ← b64Index c1
  let i2 ← b64Index c2
  let i3 ← b64Index c3
  let i4 ← b64Index c4
  pure [i1 * 4 + i2 / 16, i2 % 16 * 16 + i3 / 4, i3 % 4 * 64 + i4]

/-- `atob`, on the character list of its argument. -/
def atobList : List Char → Option (List Nat)
  | c1 :: c2 :: c3 :: c4 :: rest =>
    if rest = [] ∧ c4 = '=' then
      if c3 = '=' then dec2 c1 c2 else dec3 c1 c2 c3
    else do
      let bytes ← dec4 c1 c2 c3 c4
      let more ← atobList rest
      pure (bytes ++ more)
  | [c1, c2, c3] => dec3 c1 c2 c3
  | [c1, c2] => dec2 c1 c2
  | [_] => none
  | [] => some []

/-! ## `BGUtils.base64ToU8` / `BGUtils.u8ToBase64` -/

/-- The `base64urlToBase64Map` lookup of `BGUtils.base64ToU8`. -/
def base64urlToBase64Map (c : Char) : Char :=
  if c = '-' then '+' else if c = '_' then '/' else if c = '.' then '=' else c

def isBase64UrlChar (c : Char) : Bool := c = '-' ∨ c = '_' ∨ c = '.'

/-- `BGUtils.base64ToU8`: map URL-safe characters back (only when any is
present, as in the source's regex test), then `atob`, then read the binary
string's char codes.  `none` models the platform decode failure. -/
def base64ToU8 (base64 : String) : Option (List Nat) :=
  let cs := base64.toList
  let base64Mod := if cs.any isBase64UrlChar then cs.map base64urlToBase64Map else cs
  atobList base64Mod

/-- The URL-safe output substitution of `BGUtils.u8ToBase64`
(`+` → `-`, `/` → `_`; padding untouched). -/
def base64ToUrlChar (c : Char) : Char :=
  if c = '+' then '-' else if c = '/' then '_' else c

/-- `BGUtils.u8ToBase64` (elements of the `Uint8Array` argument are < 256). -/
def u8ToBase64 (u8 : List Nat) (base64url : Bool := false) : String :=
  let result := encodeGroups u8
  if base64url then (result.map base64ToUrlChar).asString else result.asString

/-! ## Platform UTF-8 primitives (`TextEncoder` / `TextDecoder`)

`TextEncoder.encode` produces the UTF-8 bytes of a string.  The decoder is
modelled strictly (`none` on invalid sequences — the platform's default
`TextDecoder` substitutes U+FFFD there instead, but the claims only exercise
it on valid encodings, where the two agree). -/

def utf8EncodeChar (c : Char) : List Nat :=
  let n := c.toNat
  if n < 0x80 then [n]
  else if n < 0x800 then [0xC0 + n / 64, 0x80 + n % 64]
  else if n < 0x10000 then [0xE0 + n / 4096, 0x80 + n / 64 % 64, 0x80 + n % 64]
  else [0xF0 + n / 262144, 0x80 + n / 4096 % 64, 0x80 + n / 64 % 64, 0x80 + n % 64]

def utf8EncodeList (cs : List Char) : List Nat :=
  (cs.map utf8EncodeChar).flatten

/-- A scalar value becomes a `Char` when it is in the valid (non-surrogate)
code point range. -/
def mkCharM (n : Nat) : Option Char :=
  if n < 0xD800 ∨ (0xE000 ≤ n ∧ n < 0x110000) then some (Char.ofNat n) else none

def isCont (b : Nat) : Bool := 0x80 ≤ b ∧ b < 0xC0

/-- Decode one UTF-8 scalar value: the lead byte, the continuation bytes it
requires, and the remaining byte stream. -/
def utf8DecodeOne (b : Nat) (bs : List Nat) : Option (Char × List Nat) :=
  if b < 0x80 then (mkCharM b).map ((·, bs))
  else if b < 0xC2 then none
  else if b < 0xE0 then
    match bs with
    | b2 :: bs' =>
      if isCont b2 then (mkCharM ((b - 0xC0) * 64 + (b2 - 0x80))).map ((·, bs')) else none
    | [] => none
  else if b < 0xF0 then
    match bs with
    | b2 :: b3 :: bs' =>
      if isCont b2 ∧ isCont b3 then
        let n := (b - 0xE0) * 4096 + (b2 - 0x80) * 64 + (b3 - 0x80)
        if 0x800 ≤ n then (mkCharM n).map ((·, bs')) else none
      else none
    | _ => none
  else if b < 0xF5 then
    match bs with
    | b2 :: b3 :: b4 :: bs' =>
      if isCont b2 ∧ isCont b3 ∧ isCont b4 then
        let n := (b - 0xF0) * 262144 + (b2 - 0x80) * 4096 + (b3 - 0x80) * 64 + (b4 - 0x80)
        if 0x10000 ≤ n then (mkCharM n).map ((·, bs')) else none
      else none
    | _ => none
  else none

/-- Decode a UTF-8 byte stream; the fuel (instantiated with the stream
length, an upper bound on the number of scalars) keeps the recursion
structural. -/
def utf8DecodeAux : Nat → List Nat → Option (List Char)
  | _, [] => some []
  | 0, _ :: _ => none
  | fuel + 1, b :: bs =>
    match utf8DecodeOne b bs with
    | none => none
    | some (c, rest) => (utf8DecodeAux fuel rest).map (c :: ·)

def utf8DecodeList (bytes : List Nat) : Option (List Char) :=
  utf8DecodeAux bytes.length bytes

/-- `new TextDecoder().decode` on a byte list, as a string. -/
def textDecodeM (bytes : List Nat) : Option String :=
  (utf8DecodeList bytes).map List.asString

/-! ## `BGUtils.b64ToBuf` / `BGUtils.stringToB64`

`Uint8Array.prototype.map` stores each result with a wrap to 8 bits, so the
source's `b + 97` and `b - 97` are `(b + 97) % 256` and `(b + 256 - 97) % 256`
over `Nat`. -/

/-- `BGUtils.b64ToBuf`: base64-decode, return `""` on an empty buffer, else
shift every byte up by 97 (mod 256) and UTF-8-decode. -/
def b64ToBuf (b64 : String) : Option String := do
  let buffer ← base64ToU8 b64
  if buffer.length = 0 then pure ""
  else textDecodeM (buffer.map (fun b => (b + 97) % 256))

/-- `BGUtils.stringToB64`: UTF-8-encode, shift every byte down by 97
(mod 256), base64-encode (standard alphabet). -/
def stringToB64 (str : String) : String :=
  u8ToBase64 ((utf8EncodeList str.toList).map (fun b => (b + 159) % 256)) false

/-! ## JSON values, `BGUtils.parseChallenge`, `BGUtils.createChallenge` -/

/-- JSON values as they appear in the parsed remote responses. -/
inductive JSVal where
  | null
  | bool (b : Bool)
  | num (n : Int)
  | str (s : String)
  | arr (xs : List JSVal)

/-- JavaScript truthiness of a `JSVal`. -/
def truthy : JSVal → Bool
  | .null => false
  | .bool b => b
  | .num n => n ≠ 0
  | .str s => s ≠ ""
  | .arr _ => true

/-- Element coercion of `Array.prototype.join`: `null` elements join as
empty strings, nested arrays as their own joins. -/
def jsArrToString : List JSVal → List String
  | [] => []
  | .null :: rest => "" :: jsArrToString rest
  | .bool b :: rest => (if b then "true" else "false") :: jsArrToString rest
  | .num n :: rest => toString n :: jsArrToString rest
  | .str s :: rest => s :: jsArrToString rest
  | .arr xs :: rest => String.intercalate "," (jsArrToString xs) :: jsArrToString rest

/-- JavaScript string coercion of a `JSVal` (arrays join with `,`). -/
def jsToString : JSVal → String
  | .null => "null"
  | .bool true => "true"
  | .bool false => "false"
  | .num n => toString n
  | .str s => s
  | .arr xs => String.intercalate "," (jsArrToString xs)

structure ChallengeDescriptor where
  script : JSVal
  interpreterHash : JSVal
  globalName : JSVal
  challenge : JSVal
  messageId : JSVal

/-- The `JSON.parse` of the decoded inner payload, destructured as the
6-tuple `[messageId, script, _, interpreterHash, challenge, globalName]`.
A platform primitive (it may throw), so taken as a parameter. -/
abbrev ParseSix := String → Except String (JSVal × JSVal × JSVal × JSVal × JSVal × JSVal)

/-- `BGUtils.parseChallenge`: decode via `b64ToBuf`; on a non-empty string,
`JSON.parse` and destructure; on an empty string fall through (`undefined`,
modelled as `none`). -/
def parseChallenge (parseSix : ParseSix) (challenge : String) :
    Except String (Option ChallengeDescriptor) :=
  match b64ToBuf challenge with
  | none => .error "DecodeError"
  | some str =>
    if str.length ≠ 0 then
      match parseSix str with
      | .error e => .error e
      | .ok (messageId, script, _, interpreterHash, chall, globalName) =>
        .ok (some ⟨script, interpreterHash, globalName, chall, messageId⟩)
    else .ok none

/-- The response a `FetchFunction` call produced: HTTP success flag, status,
and the JSON-parsed body (an array). -/
structure FetchResponse where
  ok : Bool
  status : Nat
  json : List JSVal

/-- `BGUtils.createChallenge`, from the point where the fetch response is in
hand: throw `Failed to fetch: <status>` when not ok; when the parsed array
has a truthy second element, parse it (JS coerces it to a string first);
return the parsed descriptor when truthy, otherwise fall through to
`undefined` (`none`). -/
def createChallenge (parseSix : ParseSix) (response : FetchResponse) :
    Except String (Option ChallengeDescriptor) :=
  if !response.ok then .error ("Failed to fetch: " ++ toString response.status)
  else
    let challenge := response.json
    if 1 < challenge.length ∧ truthy (challenge.getD 1 .null) then
      parseChallenge parseSix (jsToString (challenge.getD 1 .null))
    else .ok none

/-! ## `SandboxedEvaluator`: event-subscription table (`on` / `off` / `emit`)

Handlers are identified by tags; the three tags are the three closures one
outstanding `evaluate` call registers (the pipeline serializes `evaluate`
calls, so one call's handlers are in play at a time). -/

inductive HTag where
  | resultH
  | errorH
  | closeH
deriving DecidableEq, Repr

/-- The `listeners` map: event name to the ordered list of its handlers. -/
abbrev Listeners := List (String × List HTag)

def lGet (ls : Listeners) (event : String) : List HTag :=
  match ls.lookup event with
  | some hs => hs
  | none => []

def lHas (ls : Listeners) (event : String) : Bool :=
  (ls.lookup event).isSome

def lSet (ls : Listeners) (event : String) (hs : List HTag) : Listeners :=
  ls.map (fun p => if p.1 = event then (p.1, hs) else p)

/-- `SandboxedEvaluator.on`: create the entry if absent, then push. -/
def lOn (ls : Listeners) (event : String) (h : HTag) : Listeners :=
  if lHas ls event then lSet ls event (lGet ls event ++ [h])
  else ls ++ [(event, [h])]

/-- `SandboxedEvaluator.off`: no-op if the event has no entry or the handler
is not present; otherwise splice out its first occurrence. -/
def lOff (ls : Listeners) (event : String) (h : HTag) : Listeners :=
  if !lHas ls event then ls
  else if h ∈ lGet ls event then lSet ls event ((lGet ls event).erase h)
  else ls

/-! ## One outstanding `evaluate` call

`evaluate` awaits `readyPromise`, posts the request, then registers a
`result`, an `error` and a `close` handler; whichever runs first removes all
three (`cleanup`) and settles the returned promise. -/

inductive PromiseState where
  | pending
  | resolved (v : JSVal)
  | rejected (e : String)

/-- Settling an already-settled JS promise is a no-op. -/
def settle (p : PromiseState) (outcome : PromiseState) : PromiseState :=
  match p with
  | .pending => outcome
  | _ => p

/-- The host-side state of one `evaluate` call: the evaluator's listener
table plus the call's promise. -/
structure CallState where
  ls : Listeners
  promise : PromiseState

/-- The `cleanup` closure: remove all three handlers. -/
def cleanup (s : CallState) : CallState :=
  { s with ls := lOff (lOff (lOff s.ls "result" .resultH) "error" .errorH) "close" .closeH }

/-- An event delivered to the evaluator: a `result`/`error` message from the
sandbox frame, or the `close` event `close()` emits. -/
inductive EvEvent where
  | result (v : JSVal)
  | error (e : String)
  | closeEv

def eventName : EvEvent → String
  | .result _ => "result"
  | .error _ => "error"
  | .closeEv => "close"

/-- Run one registered handler on an event (`resultHandler`, `errorHandler`,
`closeHandler` from `evaluate`): cleanup, then resolve/reject. -/
def runHandler (ev : EvEvent) (h : HTag) (s : CallState) : CallState :=
  match ev, h with
  | .result v, .resultH => let s := cleanup s; { s with promise := settle s.promise (.resolved v) }
  | .error e, .errorH => let s := cleanup s; { s with promise := settle s.promise (.rejected e) }
  | .closeEv, .closeH =>
    let s := cleanup s
    { s with promise := settle s.promise (.rejected "SandboxedEvaluator closed") }
  | _, _ => s

/-- `SandboxedEvaluator.emit`: iterate the handlers registered under the
event's name (the list as captured when `emit` starts). -/
def emitEvent (ev : EvEvent) (s : CallState) : CallState :=
  (lGet s.ls (eventName ev)).foldl (fun s h => runHandler ev h s) s

/-- The registrations `evaluate` performs once the ready signal has fired. -/
def registerCall (ls : Listeners) : Listeners :=
  lOn (lOn (lOn ls "result" .resultH) "error" .errorH) "close" .closeH

/-- `SandboxedEvaluator.evaluate`, up to its first suspension point: the body
runs only after `readyPromise` has resolved (`none` = still suspended, no
message posted, no handlers registered). -/
def evaluateStart (ready : Bool) (ls : Listeners) : Option CallState :=
  if ready then some ⟨registerCall ls, .pending⟩ else none

/-! ## `SandboxedEvaluator` construction, timeout and close -/

/-- Externally visible side effects of evaluator operations on the host
page (DOM, window listener, timers, events). -/
inductive Effect where
  | createFrame
  | appendFrame
  | addMsgListener
  | removeFrame
  | removeMsgListener
  | clearTimer (id : Nat)
  | armTimer (id : Nat)
  | emitClose
deriving DecidableEq, Repr

/-- The mutable fields of a `SandboxedEvaluator` relevant to construction,
`setTimeout` and `close`, plus the host's armed auto-close timers. -/
structure EvState where
  /-- `this.runnerFrame` is set (the constructor assigns it and nothing ever
  clears it). -/
  framePresent : Bool
  /-- The iframe is attached to the document. -/
  frameAttached : Bool
  /-- The window `message` listener is registered. -/
  msgListener : Bool
  /-- `this.timeout` (`null` = `none`); `clearTimeout` does not reset it. -/
  timeoutField : Option Nat
  /-- Ids of armed, not-yet-fired auto-close timers owned by this evaluator. -/
  armedTimers : List Nat
  /-- Fresh timer id source (`window.setTimeout` returns nonzero ids). -/
  nextTimerId : Nat
deriving DecidableEq, Repr

/-- `new SandboxedEvaluator(loc)`: throw before any side effect when the
runner origin equals the current origin; otherwise create and attach the
hidden credential-less iframe and start listening for messages.
`urlOrigin` models `new URL(·).origin`. -/
def mkEvaluator (urlOrigin : String → String) (currentOrigin runnerFrameLocation : String) :
    Except String EvState × List Effect :=
  let runnerOrigin := urlOrigin runnerFrameLocation
  if currentOrigin = runnerOrigin then
    (.error "Current frame must not share same origin as the runner frame", [])
  else
    (.ok ⟨true, true, true, none, [], 1⟩, [.createFrame, .appendFrame, .addMsgListener])

/-- `SandboxedEvaluator.setTimeout`: clear any pending timer first (the field
is truthy after any arm, even a stale one); arm a new auto-close only for a
non-null, non-zero duration.  `none`/`some 0` models `null`/`0` (both falsy). -/
def setTimeoutM (timeoutDuration : Option Nat) (s : EvState) : EvState × List Effect :=
  let (s, cleared) :=
    match s.timeoutField with
    | some id => ({ s with armedTimers := s.armedTimers.erase id }, [Effect.clearTimer id])
    | none => (s, [])
  match timeoutDuration with
  | none => (s, cleared)
  | some 0 => (s, cleared)
  | some _ =>
    ({ s with armedTimers := s.armedTimers ++ [s.nextTimerId],
              timeoutField := some s.nextTimerId,
              nextTimerId := s.nextTimerId + 1 },
     cleared ++ [Effect.armTimer s.nextTimerId])

/-- `SandboxedEvaluator.close`: guarded by `this.runnerFrame` (which is never
cleared); removes the frame, stops listening, clears any pending timer and
emits `close`. -/
def closeM (s : EvState) : EvState × List Effect :=
  if !s.framePresent then (s, [])
  else
    let (s, cleared) :=
      match s.timeoutField with
      | some id => ({ s with armedTimers := s.armedTimers.erase id }, [Effect.clearTimer id])
      | none => (s, [])
    ({ s with frameAttached := false, msgListener := false },
     [Effect.removeFrame, Effect.removeMsgListener] ++ cleared ++ [Effect.emitClose])

/-- An auto-close timer can fire only while it is armed. -/
def canFire (s : EvState) (id : Nat) : Prop := id ∈ s.armedTimers

/-! ## `SandboxedEvaluator.matchArgValues` -/

/-- A JS object: its own properties and the properties reachable through its
prototype chain.  `undefined` values are modelled as absence. -/
structure JSObject where
  own : List (String × JSVal)
  proto : List (String × JSVal)

/-- `Object.hasOwn`. -/
def hasOwn (o : JSObject) (key : String) : Bool :=
  (o.own.lookup key).isSome

/-- Property read `o[key]`: own properties shadow inherited ones;
`undefined` (`none`) if neither has the key. -/
def getProp (o : JSObject) (key : String) : Option JSVal :=
  match o.own.lookup key with
  | some v => some v
  | none => o.proto.lookup key

/-- `SandboxedEvaluator.matchArgValues`: for each name, the object's value
when the name is an own property, else `undefined` (`none`). -/
def matchArgValues (argNames : List String) (argObject : JSObject) : List (Option JSVal) :=
  argNames.map (fun arg => if !hasOwn argObject arg then none else getProp argObject arg)

/-! ## `BGUtils.getPot` (the token pipeline)

The pipeline is modelled as a deterministic function of an environment
carrying the outcome of each awaited external operation (network calls and
sandbox evaluations, each of which may throw), together with the ordered
trace of evaluator/network operations it performs.  The default-filling of
`requestToken`/`apiKey`/`vd` (obfuscated constants, random visitor data) is
upstream of the evaluator lifecycle and enters only as the already-resolved
`vd`/`requestToken` strings. -/

def JSVal.isNull : JSVal → Bool
  | .null => true
  | _ => false

/-- Outcomes of the awaited external operations of one `getPot` run.
`fetch1`/`fetch2` are the two POSTs (`.error` = the fetch or its `json()`
threw); `parseSix` is `JSON.parse` on the decoded challenge payload;
`evalScript`/`evalFn1`/`evalFn2` are the three sandbox evaluations. -/
structure PipelineEnv where
  fetch1 : Except String FetchResponse
  parseSix : ParseSix
  evalScript : Except String JSVal
  evalFn1 : Except String JSVal
  fetch2 : Except String FetchResponse
  evalFn2 : Except String JSVal

/-- The observable operations `getPot` performs, in order. -/
inductive Action where
  | setTimer (d : Option Nat)
  | loadAwait
  | fetchChallenge
  /-- A sandbox `evaluate` call: 0 = vendor script, 1 = fn1, 2 = fn2. -/
  | evaluateOp (idx : Nat)
  | fetchToken
  | close
deriving DecidableEq, Repr

/-- The result object `{ pot, vd, requestToken, ttl, refresh }`
(`ttl`/`refresh` are `undefined` (`none`) when the token response array is
short). -/
structure TokenResult where
  pot : JSVal
  vd : String
  requestToken : String
  ttl : Option JSVal
  refresh : Option JSVal

/-- The `try` block of `BGUtils.getPot` (the success close included). -/
def getPotBody (env : PipelineEnv) (debug : Bool) (vd requestToken : String) :
    Except String TokenResult × List Action :=
  let pre : List Action :=
    (if debug then [] else [.setTimer (some 5000)]) ++ [.loadAwait] ++
      (if debug then [] else [.setTimer none]) ++ [.fetchChallenge]
  let challengeRes : Except String (Option ChallengeDescriptor) :=
    match env.fetch1 with
    | .error e => .error e
    | .ok response => createChallenge env.parseSix response
  match challengeRes with
  | .error e => (.error e, pre)
  | .ok none => (.error "C is incorrect", pre)
  | .ok (some challenge) =>
    if !truthy challenge.script then (.error "CS is bad", pre)
    else
      match challenge.script with
      | .arr scripts =>
        match scripts.find? (fun sc => !sc.isNull) with
        | none => (.error "CS is null", pre)
        | some script =>
          if !truthy script then (.error "CS is null", pre)
          else
            let t1 := pre ++ (if debug then [] else [.setTimer (some 5000)]) ++ [.evaluateOp 0]
            match env.evalScript with
            | .error e => (.error e, t1)
            | .ok _ =>
              let t2 := t1 ++ (if debug then [] else [.setTimer (some 5000)]) ++ [.evaluateOp 1]
              match env.evalFn1 with
              | .error e => (.error e, t2)
              | .ok _response =>
                let t3 := t2 ++ (if debug then [] else [.setTimer none]) ++ [.fetchToken]
                match env.fetch2 with
                | .error e => (.error e, t3)
                | .ok response2 =>
                  if !response2.ok then (.error "It failed", t3)
                  else
                    let tokenData := response2.json
                    if tokenData.length = 0 ∨ !truthy (tokenData.getD 0 .null) then
                      (.error "It none", t3)
                    else
                      let t4 :=
                        t3 ++ (if debug then [] else [.setTimer (some 5000)]) ++ [.evaluateOp 2]
                      match env.evalFn2 with
                      | .error e => (.error e, t4)
                      | .ok pot =>
                        (.ok ⟨pot, vd, requestToken, tokenData.get? 1, tokenData.get? 2⟩,
                         t4 ++ (if debug then [] else [.close]))
      | _ => (.error "challenge.script.find is not a function", pre)

/-- `BGUtils.getPot`: the `try` block plus the `catch` handler, which closes
the evaluator (only when not `debug`) and rethrows. -/
def getPot (env : PipelineEnv) (debug : Bool) (vd requestToken : String) :
    Except String TokenResult × List Action :=
  match getPotBody env debug vd requestToken with
  | (.ok r, tr) => (.ok r, tr)
  | (.error e, tr) => (.error e, tr ++ if debug then [] else [.close])

/-! ## Derived definitions used by the theorems -/

/-- The evaluator state right after a successful construction. -/
def freshEvState : EvState := ⟨true, true, true, none, [], 1⟩

/-- No handler of the three an `evaluate` call registers is still present. -/
def noHandlers (ls : Listeners) : Prop :=
  lGet ls "result" = [] ∧ lGet ls "error" = [] ∧ lGet ls "close" = []

/-- The single-auto-close-timer invariant: at most one armed timer, and any
armed timer is the one recorded in `this.timeout`. -/
def timersWellFormed (s : EvState) : Prop :=
  s.armedTimers.length ≤ 1 ∧ ∀ id ∈ s.armedTimers, s.timeoutField = some id

/-- A pipeline environment whose challenge fetch throws at once. -/
def envFail : PipelineEnv :=
  ⟨.error "boom", fun _ => .error "JSON.parse", .error "x", .error "x", .error "x", .error "x"⟩

/-- A pipeline environment whose challenge descriptor decodes with an
all-null `script` array (`"AAEC"` decodes to the non-empty inner payload
`"abc"`, which the stubbed `JSON.parse` turns into the 6-tuple). -/
def envNullScripts : PipelineEnv :=
  ⟨.ok ⟨true, 200, [.null, .str "AAEC"]⟩,
   fun _ => .ok (.str "mid", .arr [.null, .null], .null, .null, .str "ch", .str "gn"),
   .error "x", .error "x", .error "x", .error "x"⟩

/-! ## Theorems -/

/-- C3: an `evaluate` call runs only once the ready signal has fired, and
then settles in exactly one way — resolving with the carried value on a
`result` message, rejecting with the carried error on an `error` message,
rejecting with the "closed" error on the `close` event — removing all three
registered handlers in each case, so that later events leave the settled
call untouched. -/
theorem evaluate_settles_once (v : JSVal) (e : String) :
    evaluateStart false [] = none ∧
    evaluateStart true [] = some ⟨registerCall [], .pending⟩ ∧
    ((emitEvent (.result v) ⟨registerCall [], .pending⟩).promise = .resolved v ∧
      noHandlers (emitEvent (.result v) ⟨registerCall [], .pending⟩).ls) ∧
    ((emitEvent (.error e) ⟨registerCall [], .pending⟩).promise = .rejected e ∧
      noHandlers (emitEvent (.error e) ⟨registerCall [], .pending⟩).ls) ∧
    ((emitEvent .closeEv ⟨registerCall [], .pending⟩).promise =
        .rejected "SandboxedEvaluator closed" ∧
      noHandlers (emitEvent .closeEv ⟨registerCall [], .pending⟩).ls) ∧
    (∀ ev, emitEvent ev (emitEvent (.result v) ⟨registerCall [], .pending⟩) =
      emitEvent (.result v) ⟨registerCall [], .pending⟩) := by
  refine ⟨rfl, rfl, ⟨rfl, rfl, rfl, rfl⟩, ⟨rfl, rfl, rfl, rfl⟩, ⟨rfl, rfl, rfl, rfl⟩, ?_⟩
  intro ev
  cases ev <;> rfl

/-- C2 counterexample: on a freshly constructed evaluator, a second call to
`close()` emits the `close` event again (the `runnerFrame` field is never
cleared, so the early-return guard never fires). -/
theorem close_second_call_emits_again :
    Effect.emitClose ∈ (closeM (closeM freshEvState).1).2 := by decide

/-- C2 amended: `close()` is not idempotent.  On any evaluator state whose
`runnerFrame` field is set — which holds after construction and is never
undone — every `close()` call, including a repeated one, emits the `close`
event again (besides re-running the frame removal and listener/timer
cleanup). -/
theorem close_always_emits (s : EvState) (h : s.framePresent = true) :
    Effect.emitClose ∈ (closeM s).2 ∧
    (closeM s).1.framePresent = true ∧
    Effect.emitClose ∈ (closeM (closeM s).1).2 := by
  obtain ⟨fp, fa, ml, tf, at_, ni⟩ := s
  subst h
  cases tf <;> simp [closeM]

/-- C2 witness. -/
theorem close_always_emits_witness :
    Effect.emitClose ∈ (closeM freshEvState).2 ∧
    (closeM freshEvState).1.framePresent = true ∧
    Effect.emitClose ∈ (closeM (closeM freshEvState).1).2 :=
  close_always_emits freshEvState rfl

/-- C8: constructing a `SandboxedEvaluator` whose runner location has the
caller's own origin throws the configuration error, and on that path no
iframe is created or attached, no message listener is registered, and no
evaluator state is produced. -/
theorem mkEvaluator_same_origin (urlOrigin : String → String)
    (currentOrigin runnerFrameLocation : String)
    (h : urlOrigin runnerFrameLocation = currentOrigin) :
    mkEvaluator urlOrigin currentOrigin runnerFrameLocation =
      (.error "Current frame must not share same origin as the runner frame", []) := by
  simp [mkEvaluator, h]

/-- C8 witness. -/
theorem mkEvaluator_same_origin_witness :
    (fun _ : String => "https://host.example") "https://host.example/runner.html" =
        "https://host.example" ∧
    mkEvaluator (fun _ => "https://host.example") "https://host.example"
        "https://host.example/runner.html" =
      (.error "Current frame must not share same origin as the runner frame", []) :=
  ⟨rfl, mkEvaluator_same_origin _ _ _ rfl⟩

theorem timersWellFormed_erase (s : EvState) (h : timersWellFormed s) (id : Nat)
    (hid : s.timeoutField = some id) : s.armedTimers.erase id = [] := by
  obtain ⟨hlen, hall⟩ := h
  match harm : s.armedTimers with
  | [] => rfl
  | [a] =>
    have := hall a (by simp [harm])
    rw [hid] at this
    simp at this
    simp [this, List.erase_cons]
  | a :: b :: rest => simp [harm] at hlen

/-- After the cancel step of `setTimeoutM`, a well-formed state has no armed
timer left. -/
theorem setTimeoutM_cancel_armed (s : EvState) (h : timersWellFormed s) :
    (setTimeoutM none s).1.armedTimers = [] := by
  cases htf : s.timeoutField with
  | none =>
    have : s.armedTimers = [] := by
      cases harm : s.armedTimers with
      | nil => rfl
      | cons a rest =>
        have := h.2 a (by simp [harm])
        rw [htf] at this
        cases this
    simp [setTimeoutM, htf, this]
  | some id =>
    have := timersWellFormed_erase s h id htf
    simp [setTimeoutM, htf, this]

/-- Arming a well-formed state leaves exactly the fresh timer armed and
recorded in `this.timeout`. -/
theorem setTimeoutM_arm_armed (s : EvState) (h : timersWellFormed s) (n : Nat) :
    (setTimeoutM (some (n + 1)) s).1.armedTimers = [s.nextTimerId] ∧
    (setTimeoutM (some (n + 1)) s).1.timeoutField = some s.nextTimerId := by
  cases htf : s.timeoutField with
  | none =>
    have harm : s.armedTimers = [] := by
      cases harm : s.armedTimers with
      | nil => rfl
      | cons a rest =>
        have := h.2 a (by simp [harm])
        rw [htf] at this
        cases this
    simp [setTimeoutM, htf, harm]
  | some id =>
    have := timersWellFormed_erase s h id htf
    simp [setTimeoutM, htf, this]

/-- C9: the evaluator keeps at most one auto-close timer armed: every
`setTimeout` call first cancels any pending timer and preserves the
single-timer invariant, and `setTimeout(5000)` followed by `setTimeout(null)`
(before expiry) leaves no armed timer, so no auto-close can ever fire. -/
theorem setTimeout_single_timer (s : EvState) (d : Option Nat)
    (h : timersWellFormed s) :
    timersWellFormed (setTimeoutM d s).1 ∧
    (setTimeoutM none (setTimeoutM (some 5000) s).1).1.armedTimers = [] ∧
    ∀ id, ¬ canFire (setTimeoutM none (setTimeoutM (some 5000) s).1).1 id := by
  have wf1 : timersWellFormed (setTimeoutM d s).1 := by
    match d with
    | none =>
      have := setTimeoutM_cancel_armed s h
      exact ⟨by simp [this], by simp [this]⟩
    | some 0 =>
      have := setTimeoutM_cancel_armed s h
      have h0 : setTimeoutM (some 0) s = setTimeoutM none s := by
        cases htf : s.timeoutField <;> simp [setTimeoutM, htf]
      rw [h0]
      exact ⟨by simp [this], by simp [this]⟩
    | some (n + 1) =>
      obtain ⟨ha, hf⟩ := setTimeoutM_arm_armed s h n
      refine ⟨by simp [ha], ?_⟩
      intro id hid
      rw [ha] at hid
      simp at hid
      rw [hf, hid]
  refine ⟨wf1, ?_⟩
  obtain ⟨ha, hf⟩ := setTimeoutM_arm_armed s h 4999
  have wfArmed : timersWellFormed (setTimeoutM (some 5000) s).1 := by
    refine ⟨by simp [ha], ?_⟩
    intro id hid
    rw [ha] at hid
    simp at hid
    rw [hf, hid]
  have := setTimeoutM_cancel_armed _ wfArmed
  exact ⟨this, fun id hid => by rw [canFire, this] at hid; cases hid⟩

/-- C9 witness. -/
theorem setTimeout_single_timer_witness :
    timersWellFormed freshEvState ∧
    (timersWellFormed (setTimeoutM (some 7) freshEvState).1 ∧
     (setTimeoutM none (setTimeoutM (some 5000) freshEvState).1).1.armedTimers = [] ∧
     ∀ id, ¬ canFire (setTimeoutM none (setTimeoutM (some 5000) freshEvState).1).1 id) :=
  ⟨⟨by decide, by decide⟩, setTimeout_single_timer freshEvState (some 7) ⟨by decide, by decide⟩⟩

/-- C10: `matchArgValues` returns exactly one entry per argument name, and
the i-th entry is the object's *own* value for the i-th name when that name
is an own property, `undefined` otherwise — inherited (prototype) properties
are never consulted. -/
theorem matchArgValues_spec (argNames : List String) (argObject : JSObject) :
    (matchArgValues argNames argObject).length = argNames.length ∧
    ∀ (i : Nat) (name : String), argNames[i]? = some name →
      (matchArgValues argNames argObject)[i]? = some (argObject.own.lookup name) := by
  constructor
  · simp [matchArgValues]
  · intro i name hname
    simp only [matchArgValues, List.getElem?_map, hname, Option.map_some]
    cases h : argObject.own.lookup name <;> simp [hasOwn, getProp, h]

/-- C10 witness (the prototype carries `"b"`, which is ignored). -/
theorem matchArgValues_spec_witness :
    ((["a", "b"][0]? = some "a") ∧
      (matchArgValues ["a", "b"] ⟨[("a", .num 1)], [("b", .num 2)]⟩)[0]? =
        some ((⟨[("a", .num 1)], [("b", .num 2)]⟩ : JSObject).own.lookup "a")) ∧
    ((["a", "b"][1]? = some "b") ∧
      (matchArgValues ["a", "b"] ⟨[("a", .num 1)], [("b", .num 2)]⟩)[1]? =
        some ((⟨[("a", .num 1)], [("b", .num 2)]⟩ : JSObject).own.lookup "b")) :=
  ⟨⟨rfl, (matchArgValues_spec ["a", "b"] _).2 0 "a" rfl⟩,
   ⟨rfl, (matchArgValues_spec ["a", "b"] _).2 1 "b" rfl⟩⟩

/-- C5: `createChallenge` throws the transport error exactly when the HTTP
response is not ok; on an ok response it returns `undefined` (never throws)
both when the parsed array has no truthy second element and when the
truthy second element's decoded inner payload is the empty string. -/
theorem createChallenge_contract (parseSix : ParseSix) (response : FetchResponse) :
    (response.ok = false →
      createChallenge parseSix response =
        .error ("Failed to fetch: " ++ toString response.status)) ∧
    (response.ok = true →
      ¬(1 < response.json.length ∧ truthy (response.json.getD 1 .null)) →
      createChallenge parseSix response = .ok none) ∧
    (∀ s, response.ok = true → response.json.getD 1 .null = .str s →
      b64ToBuf s = some "" →
      createChallenge parseSix response = .ok none) := by
  refine ⟨fun hok => by simp [createChallenge, hok], fun hok hshape => ?_, fun s hok hsec hdec => ?_⟩
  · simp only [createChallenge, hok, Bool.not_true, Bool.false_eq_true, if_false]
    exact if_neg hshape
  · simp only [createChallenge, hok, Bool.not_true, Bool.false_eq_true, if_false]
    by_cases hshape : 1 < response.json.length ∧ truthy (response.json.getD 1 .null)
    · rw [if_pos hshape, hsec]
      simp only [jsToString]
      simp [parseChallenge, hdec]
    · exact if_neg hshape

/-- C5 witness: a 500 response throws; `[null]` and `[null, ""]` both give
`undefined`. -/
theorem createChallenge_contract_witness :
    (createChallenge (fun _ => .error "JSON.parse") ⟨false, 500, []⟩ =
      .error ("Failed to fetch: " ++ toString 500) ∧
     createChallenge (fun _ => .error "JSON.parse") ⟨true, 200, [.null]⟩ = .ok none) ∧
    ((⟨true, 200, [.null, .str ""]⟩ : FetchResponse).json.getD 1 .null = .str "" ∧
     b64ToBuf "" = some "" ∧
     createChallenge (fun _ => .error "JSON.parse") ⟨true, 200, [.null, .str ""]⟩ = .ok none) :=
  ⟨⟨(createChallenge_contract _ _).1 rfl,
    (createChallenge_contract _ _).2.1 rfl (by simp [truthy])⟩,
   rfl, rfl, (createChallenge_contract _ _).2.2 "" rfl rfl rfl⟩

/-- In debug mode the `try` block of `getPot` never closes the evaluator
(the success-path close is also guarded by `!debug`). -/
theorem getPotBody_debug_no_close (env : PipelineEnv) (vd rt : String) :
    Action.close ∉ (getPotBody env true vd rt).2 := by
  unfold getPotBody
  repeat' split
  all_goals try simp
  all_goals repeat' split
  all_goals try simp
  all_goals try simp_all

/-- C1 counterexample: with `debug = true`, a failing `getPot` run (here the
challenge fetch throws) propagates the error without ever closing the
evaluator — the catch block's close is guarded by `!debug`. -/
theorem getPot_debug_error_not_closed :
    (getPot envFail true "vd" "rt").1 = .error "boom" ∧
    Action.close ∉ (getPot envFail true "vd" "rt").2 := by
  constructor
  · rfl
  · decide

/-- C1 amended: on every failing `getPot` run the error propagates with the
evaluator closed as the final action when `debug` is false, while in debug
mode the cleanup-on-error close (like every other close) is suppressed. -/
theorem getPot_close_on_error_iff_not_debug (env : PipelineEnv) (debug : Bool)
    (vd requestToken : String) (e : String)
    (herr : (getPot env debug vd requestToken).1 = .error e) :
    (debug = false → (getPot env debug vd requestToken).2.getLast? = some Action.close) ∧
    (debug = true → Action.close ∉ (getPot env debug vd requestToken).2) := by
  constructor
  · intro hd
    subst hd
    unfold getPot at herr ⊢
    rcases hb : getPotBody env false vd requestToken with ⟨r, tr⟩
    match r with
    | .ok v => rw [hb] at herr; simp at herr
    | .error e1 => simp [List.getLast?_concat]
  · intro hd
    subst hd
    unfold getPot
    rcases hb : getPotBody env true vd requestToken with ⟨r, tr⟩
    have hnc := getPotBody_debug_no_close env vd requestToken
    rw [hb] at hnc
    match r with
    | .ok v => simpa using hnc
    | .error e1 => simpa using hnc

/-- C1 amended witness. -/
theorem getPot_close_on_error_iff_not_debug_witness :
    (getPot envFail false "vd" "rt").1 = .error "boom" ∧
    ((false = false → (getPot envFail false "vd" "rt").2.getLast? = some Action.close) ∧
     (false = true → Action.close ∉ (getPot envFail false "vd" "rt").2)) :=
  ⟨rfl, getPot_close_on_error_iff_not_debug envFail false "vd" "rt" "boom" rfl⟩

/-- C4: whenever the fetched challenge descriptor's `script` field is an
array of all-null entries, `getPot` rejects with the "CS is null"
protocol error and no `evaluate` call is ever issued to the sandbox. -/
theorem getPot_all_null_script (env : PipelineEnv) (debug : Bool) (vd requestToken : String)
    (response : FetchResponse) (desc : ChallengeDescriptor) (scripts : List JSVal)
    (hfetch : env.fetch1 = .ok response)
    (hch : createChallenge env.parseSix response = .ok (some desc))
    (hscript : desc.script = .arr scripts)
    (hnull : ∀ sc ∈ scripts, sc = .null) :
    (getPot env debug vd requestToken).1 = .error "CS is null" ∧
    ∀ a ∈ (getPot env debug vd requestToken).2, ∀ i, a ≠ Action.evaluateOp i := by
  have hfind : scripts.find? (fun sc => !sc.isNull) = none := by
    rw [List.find?_eq_none]
    intro sc hsc
    rw [hnull sc hsc]
    simp [JSVal.isNull]
  have hbody : getPotBody env debug vd requestToken =
      (.error "CS is null",
       (if debug then [] else [.setTimer (some 5000)]) ++ [.loadAwait] ++
         (if debug then [] else [.setTimer none]) ++ [.fetchChallenge]) := by
    unfold getPotBody
    simp only [hfetch, hch, hscript, hfind, truthy]
    simp
  constructor
  · unfold getPot
    rw [hbody]
  · unfold getPot
    rw [hbody]
    intro a ha i hcontra
    subst hcontra
    cases debug <;> simp_all

/-- C4 witness. -/
theorem getPot_all_null_script_witness :
    envNullScripts.fetch1 = .ok ⟨true, 200, [.null, .str "AAEC"]⟩ ∧
    createChallenge envNullScripts.parseSix ⟨true, 200, [.null, .str "AAEC"]⟩ =
      .ok (some ⟨.arr [.null, .null], .null, .str "gn", .str "ch", .str "mid"⟩) ∧
    ((getPot envNullScripts false "vd" "rt").1 = .error "CS is null" ∧
     ∀ a ∈ (getPot envNullScripts false "vd" "rt").2, ∀ i, a ≠ Action.evaluateOp i) :=
  ⟨rfl, rfl,
   getPot_all_null_script envNullScripts false "vd" "rt" _
     ⟨.arr [.null, .null], .null, .str "gn", .str "ch", .str "mid"⟩ [.null, .null]
     rfl rfl rfl
     (fun sc h => by simp at h; exact h)⟩

/-! ### Base64 round trip (C6) -/

theorem b64Index_b64Char : ∀ n, n < 64 → b64Index (b64Char n) = some n := by decide

theorem b64Char_ne_pad : ∀ n, n < 64 → b64Char n ≠ '=' := by decide

theorem b64Char_mem : ∀ n, n < 64 → b64Char n ∈ b64Chars := by decide

theorem mapback_urlmap : ∀ c ∈ b64Chars, base64urlToBase64Map (base64ToUrlChar c) = c := by
  decide

theorem mapback_b64id : ∀ c ∈ b64Chars, base64urlToBase64Map c = c := by decide

/-- Decoding inverts encoding on the standard alphabet, byte-group-wise. -/
theorem atob_encode : ∀ (bs : List Nat), (∀ x ∈ bs, x < 256) →
    atobList (encodeGroups bs) = some bs
  | [], _ => rfl
  | [a], h => by
    have ha : a < 256 := h a (by simp)
    have h1 := b64Index_b64Char (a / 4) (by omega)
    have h2 := b64Index_b64Char (a % 4 * 16) (by omega)
    simp [encodeGroups, atobList, dec2, h1, h2]
    omega
  | [a, b], h => by
    have ha : a < 256 := h a (by simp)
    have hb : b < 256 := h b (by simp)
    have h1 := b64Index_b64Char (a / 4) (by omega)
    have h2 := b64Index_b64Char (a % 4 * 16 + b / 16) (by omega)
    have h3 := b64Index_b64Char (b % 16 * 4) (by omega)
    have hne := b64Char_ne_pad (b % 16 * 4) (by omega)
    simp [encodeGroups, atobList, dec3, hne, h1, h2, h3]
    constructor <;> omega
  | a :: b :: c :: rest, h => by
    have ha : a < 256 := h a (by simp)
    have hb : b < 256 := h b (by simp)
    have hc : c < 256 := h c (by simp)
    have h1 := b64Index_b64Char (a / 4) (by omega)
    have h2 := b64Index_b64Char (a % 4 * 16 + b / 16) (by omega)
    have h3 := b64Index_b64Char (b % 16 * 4 + c / 64) (by omega)
    have h4 := b64Index_b64Char (c % 64) (by omega)
    have hne := b64Char_ne_pad (c % 64) (by omega)
    have ih := atob_encode rest (fun x hx => h x (by simp [hx]))
    simp [encodeGroups, atobList, dec4, hne, h1, h2, h3, h4, ih]
    refine ⟨by omega, by omega, by omega⟩

/-- Every character `btoa` emits is alphabet or padding. -/
theorem encodeGroups_chars : ∀ (bs : List Nat), (∀ x ∈ bs, x < 256) →
    ∀ c ∈ encodeGroups bs, c ∈ b64Chars ∨ c = '='
  | [], _ => by simp [encodeGroups]
  | [a], h => by
    have ha : a < 256 := h a (by simp)
    intro c hc
    simp [encodeGroups] at hc
    rcases hc with rfl | rfl | rfl
    · exact Or.inl (b64Char_mem _ (by omega))
    · exact Or.inl (b64Char_mem _ (by omega))
    · exact Or.inr rfl
  | [a, b], h => by
    have ha : a < 256 := h a (by simp)
    have hb : b < 256 := h b (by simp)
    intro c hc
    simp [encodeGroups] at hc
    rcases hc with rfl | rfl | rfl | rfl
    · exact Or.inl (b64Char_mem _ (by omega))
    · exact Or.inl (b64Char_mem _ (by omega))
    · exact Or.inl (b64Char_mem _ (by omega))
    · exact Or.inr rfl
  | a :: b :: c :: rest, h => by
    have ha : a < 256 := h a (by simp)
    have hb : b < 256 := h b (by simp)
    have hc' : c < 256 := h c (by simp)
    intro d hd
    simp [encodeGroups] at hd
    rcases hd with rfl | rfl | rfl | rfl | hd
    · exact Or.inl (b64Char_mem _ (by omega))
    · exact Or.inl (b64Char_mem _ (by omega))
    · exact Or.inl (b64Char_mem _ (by omega))
    · exact Or.inl (b64Char_mem _ (by omega))
    · exact encodeGroups_chars rest (fun x hx => h x (by simp [hx])) d hd

theorem mapBack_self (c : Char) (h : isBase64UrlChar c = false) :
    base64urlToBase64Map c = c := by
  simp [isBase64UrlChar] at h
  simp [base64urlToBase64Map, h.1, h.2.1, h.2.2]

/-- `base64ToU8` behaves as if the URL-safe substitution always ran (the
regex-test branch is an optimization, not a semantic difference). -/
theorem base64ToU8_eq_map (s : String) :
    base64ToU8 s = atobList (s.toList.map base64urlToBase64Map) := by
  unfold base64ToU8
  dsimp only
  by_cases h : s.toList.any isBase64UrlChar
  · rw [if_pos h]
  · rw [if_neg h]
    congr 1
    have hall : ∀ c ∈ s.toList, base64urlToBase64Map c = c := by
      intro c hc
      exact mapBack_self c (by
        rcases hcc : isBase64UrlChar c with _ | _
        · rfl
        · exact absurd (List.any_eq_true.mpr ⟨c, hc, hcc⟩) h)
    rw [List.map_congr_left hall]
    simp

theorem base64ToU8_u8ToBase64_url (b : List Nat) (hb : ∀ x ∈ b, x < 256) :
    base64ToU8 (u8ToBase64 b true) = some b := by
  have hchars := encodeGroups_chars b hb
  rw [base64ToU8_eq_map]
  have ht : (u8ToBase64 b true).toList = (encodeGroups b).map base64ToUrlChar := rfl
  rw [ht, List.map_map]
  have hmap : (encodeGroups b).map (base64urlToBase64Map ∘ base64ToUrlChar) = encodeGroups b := by
    rw [show (encodeGroups b).map (base64urlToBase64Map ∘ base64ToUrlChar) =
          (encodeGroups b).map id from
        List.map_congr_left (fun c hc => by
          rcases hchars c hc with hmem | rfl
          · exact mapback_urlmap c hmem
          · rfl)]
    simp
  rw [hmap]
  exact atob_encode b hb

theorem base64ToU8_u8ToBase64_std (b : List Nat) (hb : ∀ x ∈ b, x < 256) :
    base64ToU8 (u8ToBase64 b false) = some b := by
  have hchars := encodeGroups_chars b hb
  rw [base64ToU8_eq_map]
  have ht : (u8ToBase64 b false).toList = encodeGroups b := rfl
  rw [ht]
  have hmap : (encodeGroups b).map base64urlToBase64Map = encodeGroups b := by
    rw [show (encodeGroups b).map base64urlToBase64Map = (encodeGroups b).map id from
        List.map_congr_left (fun c hc => by
          rcases hchars c hc with hmem | rfl
          · exact mapback_b64id c hmem
          · rfl)]
    simp
  rw [hmap]
  exact atob_encode b hb

/-- C6: for every byte sequence, decoding inverts encoding exactly, in both
the URL-safe and the standard variant. -/
theorem base64_roundtrip (b : List Nat) (hb : ∀ x ∈ b, x < 256) :
    base64ToU8 (u8ToBase64 b true) = some b ∧
    base64ToU8 (u8ToBase64 b false) = some b :=
  ⟨base64ToU8_u8ToBase64_url b hb, base64ToU8_u8ToBase64_std b hb⟩

/-- C6 witness (the bytes exercise the `+`/`/` alphabet positions, where the
two variants differ). -/
theorem base64_roundtrip_witness :
    (∀ x ∈ [0, 251, 254], x < 256) ∧
    base64ToU8 (u8ToBase64 [0, 251, 254] true) = some [0, 251, 254] ∧
    base64ToU8 (u8ToBase64 [0, 251, 254] false) = some [0, 251, 254] :=
  ⟨by decide, (base64_roundtrip [0, 251, 254] (by decide)).1,
   (base64_roundtrip [0, 251, 254] (by decide)).2⟩

/-! ### UTF-8 round trip and the obfuscation codec (C7) -/

theorem char_toNat_valid (c : Char) :
    c.toNat < 0xD800 ∨ (0xDFFF < c.toNat ∧ c.toNat < 0x110000) := c.valid

theorem mkCharM_toNat (c : Char) : mkCharM c.toNat = some c := by
  have hv := char_toNat_valid c
  unfold mkCharM
  rw [if_pos (by omega)]
  simp

theorem utf8EncodeChar_lt (c : Char) : ∀ b ∈ utf8EncodeChar c, b < 256 := by
  have hv := char_toNat_valid c
  intro b hb
  unfold utf8EncodeChar at hb
  dsimp only at hb
  split at hb
  · simp at hb; omega
  · split at hb
    · simp at hb; rcases hb with rfl | rfl <;> omega
    · split at hb
      · simp at hb; rcases hb with rfl | rfl | rfl <;> omega
      · simp at hb; rcases hb with rfl | rfl | rfl | rfl <;> omega

theorem utf8EncodeChar_ne_nil (c : Char) : utf8EncodeChar c ≠ [] := by
  unfold utf8EncodeChar
  dsimp only
  split
  · simp
  · split
    · simp
    · split <;> simp

theorem utf8DecodeAux_cons (fuel b : Nat) (bs : List Nat) :
    utf8DecodeAux (fuel + 1) (b :: bs) =
      match utf8DecodeOne b bs with
      | none => none
      | some (c, rest) => (utf8DecodeAux fuel rest).map (c :: ·) := rfl

/-- A successful single-scalar decode consumes at least the lead byte. -/
theorem utf8DecodeOne_rest_length (b : Nat) (bs : List Nat) (c : Char) (rest : List Nat)
    (h : utf8DecodeOne b bs = some (c, rest)) : rest.length ≤ bs.length := by
  unfold utf8DecodeOne at h
  repeat' split at h
  all_goals simp_all
  all_goals
    first
    | (rcases h with ⟨a, ha, hac, rfl⟩; omega)
    | (rcases h with ⟨a, ha, hac, hc2, rfl⟩; omega)

/-- Any fuel at least the stream length decodes identically. -/
theorem utf8DecodeAux_irrel (fuel1 : Nat) : ∀ (bytes : List Nat) (fuel2 : Nat),
    bytes.length ≤ fuel1 → bytes.length ≤ fuel2 →
    utf8DecodeAux fuel1 bytes = utf8DecodeAux fuel2 bytes := by
  induction fuel1 with
  | zero =>
    intro bytes fuel2 h1 h2
    match bytes with
    | [] =>
      match fuel2 with
      | 0 => rfl
      | f + 1 => rfl
    | b :: bs => simp at h1
  | succ f1 ih =>
    intro bytes fuel2 h1 h2
    match bytes with
    | [] =>
      match fuel2 with
      | 0 => rfl
      | f + 1 => rfl
    | b :: bs =>
      match fuel2 with
      | 0 => simp at h2
      | f2 + 1 =>
        rw [utf8DecodeAux_cons, utf8DecodeAux_cons]
        cases hd : utf8DecodeOne b bs with
        | none => rfl
        | some cr =>
          obtain ⟨c, rest⟩ := cr
          have hr := utf8DecodeOne_rest_length b bs c rest hd
          simp only []
          rw [ih rest f2 (by simp at h1; omega) (by simp at h2; omega)]

/-- Decoding inverts encoding one scalar at a time. -/
theorem utf8_decode_encode_append (c : Char) (rest : List Nat) :
    utf8DecodeList (utf8EncodeChar c ++ rest) = (utf8DecodeList rest).map (c :: ·) := by
  have hv := char_toNat_valid c
  unfold utf8EncodeChar
  dsimp only
  by_cases h1 : c.toNat < 0x80
  · rw [if_pos h1]
    simp only [List.cons_append, List.nil_append]
    unfold utf8DecodeList
    simp only [List.length_cons]
    rw [utf8DecodeAux_cons]
    have hone : utf8DecodeOne c.toNat rest = some (c, rest) := by
      unfold utf8DecodeOne
      rw [if_pos h1, mkCharM_toNat]
      rfl
    rw [hone]
  · rw [if_neg h1]
    by_cases h2 : c.toNat < 0x800
    · rw [if_pos h2]
      simp only [List.cons_append, List.nil_append]
      unfold utf8DecodeList
      simp only [List.length_cons]
      rw [utf8DecodeAux_cons]
      have hone : utf8DecodeOne (0xC0 + c.toNat / 64) ((0x80 + c.toNat % 64) :: rest) =
          some (c, rest) := by
        unfold utf8DecodeOne
        rw [if_neg (by omega), if_neg (by omega), if_pos (by omega)]
        dsimp only
        rw [if_pos (by simp [isCont]; omega)]
        simp only [Nat.add_sub_cancel_left]
        rw [show c.toNat / 64 * 64 + c.toNat % 64 = c.toNat from by omega, mkCharM_toNat]
        rfl
      rw [hone]
      dsimp only
      rw [utf8DecodeAux_irrel (rest.length + 1) rest rest.length (by omega) (by omega)]
    · rw [if_neg h2]
      by_cases h3 : c.toNat < 0x10000
      · rw [if_pos h3]
        simp only [List.cons_append, List.nil_append]
        unfold utf8DecodeList
        simp only [List.length_cons]
        rw [utf8DecodeAux_cons]
        have hone : utf8DecodeOne (0xE0 + c.toNat / 4096)
            ((0x80 + c.toNat / 64 % 64) :: (0x80 + c.toNat % 64) :: rest) = some (c, rest) := by
          unfold utf8DecodeOne
          rw [if_neg (by omega), if_neg (by omega), if_neg (by omega), if_pos (by omega)]
          dsimp only
          rw [if_pos (by constructor <;> (simp [isCont]; omega))]
          simp only [Nat.add_sub_cancel_left]
          rw [show c.toNat / 4096 * 4096 + c.toNat / 64 % 64 * 64 + c.toNat % 64 = c.toNat
            from by omega]
          rw [if_pos (by omega), mkCharM_toNat]
          rfl
        rw [hone]
        dsimp only
        rw [utf8DecodeAux_irrel (rest.length + 1 + 1) rest rest.length (by omega) (by omega)]
      · rw [if_neg h3]
        simp only [List.cons_append, List.nil_append]
        unfold utf8DecodeList
        simp only [List.length_cons]
        rw [utf8DecodeAux_cons]
        have hone : utf8DecodeOne (0xF0 + c.toNat / 262144)
            ((0x80 + c.toNat / 4096 % 64) :: (0x80 + c.toNat / 64 % 64) ::
              (0x80 + c.toNat % 64) :: rest) = some (c, rest) := by
          unfold utf8DecodeOne
          rw [if_neg (by omega), if_neg (by omega), if_neg (by omega), if_neg (by omega),
            if_pos (by omega)]
          dsimp only
          rw [if_pos (by refine ⟨?_, ?_, ?_⟩ <;> (simp [isCont]; omega))]
          simp only [Nat.add_sub_cancel_left]
          rw [show c.toNat / 262144 * 262144 + c.toNat / 4096 % 64 * 4096 +
              c.toNat / 64 % 64 * 64 + c.toNat % 64 = c.toNat from by omega]
          rw [if_pos (by omega), mkCharM_toNat]
          rfl
        rw [hone]
        dsimp only
        rw [utf8DecodeAux_irrel (rest.length + 1 + 1 + 1) rest rest.length (by omega) (by omega)]

/-- UTF-8 decoding inverts UTF-8 encoding. -/
theorem utf8_decode_encode (cs : List Char) :
    utf8DecodeList (utf8EncodeList cs) = some cs := by
  induction cs with
  | nil => rfl
  | cons c cs ih =>
    unfold utf8EncodeList
    simp only [List.map_cons, List.flatten_cons]
    rw [utf8_decode_encode_append]
    unfold utf8EncodeList at ih
    rw [ih]
    rfl

/-- C7: the obfuscation codec round-trips (`b64ToBuf ∘ stringToB64 = some`)
for every UTF-8 string whose encoded bytes stay at or above the offset 97,
and `b64ToBuf` of the base64 encoding of an empty buffer is the empty
string. -/
theorem obfuscation_roundtrip :
    (∀ s : String, (∀ b ∈ utf8EncodeList s.toList, 97 ≤ b) →
      b64ToBuf (stringToB64 s) = some s) ∧
    b64ToBuf (u8ToBase64 [] false) = some "" := by
  constructor
  · intro s _hoffset
    have hlt : ∀ b ∈ utf8EncodeList s.toList, b < 256 := by
      intro b hbmem
      unfold utf8EncodeList at hbmem
      rw [List.mem_flatten] at hbmem
      obtain ⟨l, hl, hbl⟩ := hbmem
      obtain ⟨c, _hc, rfl⟩ := List.mem_map.mp hl
      exact utf8EncodeChar_lt c b hbl
    have hlt2 : ∀ x ∈ (utf8EncodeList s.toList).map (fun b => (b + 159) % 256), x < 256 := by
      intro x hx
      rw [List.mem_map] at hx
      obtain ⟨b, _, rfl⟩ := hx
      omega
    by_cases hs : s = ""
    · subst hs
      rfl
    · have hsl : s.toList ≠ [] := by
        intro h
        apply hs
        obtain ⟨data⟩ := s
        have hd : data = [] := h
        subst hd
        rfl
      have hne : utf8EncodeList s.toList ≠ [] := by
        rcases hl : s.toList with _ | ⟨c, cs⟩
        · exact absurd hl hsl
        · unfold utf8EncodeList
          simp only [List.map_cons, List.flatten_cons]
          intro hcontra
          exact utf8EncodeChar_ne_nil c (List.append_eq_nil.mp hcontra).1
      unfold stringToB64 b64ToBuf
      rw [base64ToU8_u8ToBase64_std _ hlt2]
      simp only [Option.bind_eq_bind, Option.some_bind]
      rw [if_neg (by
        simp only [List.length_map]
        intro hlen
        exact hne (List.eq_nil_of_length_eq_zero hlen))]
      rw [List.map_map]
      have hid : (utf8EncodeList s.toList).map
          ((fun b => (b + 97) % 256) ∘ (fun b => (b + 159) % 256)) =
          utf8EncodeList s.toList := by
        rw [show (utf8EncodeList s.toList).map
              ((fun b => (b + 97) % 256) ∘ (fun b => (b + 159) % 256)) =
            (utf8EncodeList s.toList).map id from
          List.map_congr_left (fun b hb => by
            have := hlt b hb
            simp only [Function.comp_apply, id_eq]
            omega)]
        simp
      rw [hid]
      unfold textDecodeM
      rw [utf8_decode_encode]
      rfl
  · rfl

/-- C7 witness. -/
theorem obfuscation_roundtrip_witness :
    (∀ b ∈ utf8EncodeList "abc".toList, 97 ≤ b) ∧
    b64ToBuf (stringToB64 "abc") = some "abc" :=
  ⟨by decide, obfuscation_roundtrip.1 "abc" (by decide)⟩

end YTJS

